import Mathlib

/-!
Shallow embedding of the cryptocurrency strategy-analysis program
(src/main.py): the three signal generators, the backtest accounting
model and the optimizer objective.

Modelling conventions:
* A price series is a list of exact rationals (the floating-point
  closing prices, taken at exact value).
* A pandas NaN is the value none of an Option type; every comparison
  against none is false, exactly as NaN comparisons are false, and
  np.where then selects the else branch.
* rolling(window=w).std() is represented by its square, the sample
  variance (ddof = 1): the program uses the standard deviation only
  inside the comparisons z < -1 and z > 1 of the z-score
  z = (price - mean)/std, and since std = sqrt(var) is nonnegative
  those comparisons are equivalent to a sign test together with a
  squared comparison, all expressible over the rationals.
* Window parameters appear after the program's int() truncation, so
  they are natural numbers here.
-/

namespace CryptoAnalysis

abbrev PriceSeries := List ℚ

/-- Closing price at positional index t (default 0 outside the series;
rows of the actual frame are the indices below the length). -/
def closeAt (data : PriceSeries) (t : ℕ) : ℚ := data.getD t 0

/-- The trailing window of width w ending at row t: rows
max(0, t+1-w) .. t of the series. -/
def windowSlice (data : PriceSeries) (w t : ℕ) : List ℚ :=
  (data.take (t + 1)).drop (t + 1 - w)

/-- rolling(window=w, min_periods=1, center=False).mean() at row t:
the mean of the available observations, NaN only when no observation
is available. -/
def rollingMean1 (data : PriceSeries) (w t : ℕ) : Option ℚ :=
  let s := windowSlice data w t
  if s.length = 0 then none else some (s.sum / s.length)

/-- rolling(window=w).mean() at row t with the default
min_periods = w: NaN until the window holds w observations. -/
def rollingMeanW (data : PriceSeries) (w t : ℕ) : Option ℚ :=
  let s := windowSlice data w t
  if s.length = w ∧ 1 ≤ w then some (s.sum / w) else none

/-- The square of rolling(window=w).std() at row t: the sample
variance with ddof = 1.  NaN (none) until the window holds w
observations, and for w = 1 (zero degrees of freedom). -/
def rollingVar (data : PriceSeries) (w t : ℕ) : Option ℚ :=
  let s := windowSlice data w t
  if s.length = w ∧ 2 ≤ w then
    some ((s.map (fun x => (x - s.sum / w) ^ 2)).sum / (w - 1))
  else none

/-- Signal column of moving_average_strategy: initialised to 0, set to
1 where short_mavg > long_mavg and to 0 where short_mavg <= long_mavg
(with min_periods=1 both means are defined on every row of a
nonempty frame; a NaN comparison selects neither branch, leaving 0). -/
def maSignal (data : PriceSeries) (short long t : ℕ) : ℚ :=
  match rollingMean1 data short t, rollingMean1 data long t with
  | some a, some b => if b < a then 1 else 0
  | _, _ => 0

/-- momentum column: Close - Close.shift(w), NaN on the first w rows. -/
def moMomentum (data : PriceSeries) (w t : ℕ) : Option ℚ :=
  if w ≤ t then some (closeAt data t - closeAt data (t - w)) else none

/-- Signal column of momentum_strategy:
np.where(momentum > 0, 1.0, 0.0); NaN > 0 is false. -/
def moSignal (data : PriceSeries) (w t : ℕ) : ℚ :=
  match moMomentum data w t with
  | some m => if 0 < m then 1 else 0
  | none => 0

/-- Signal column of mean_reversion_strategy:
np.where(z < -1, 1.0, np.where(z > 1, -1.0, 0.0)) with
z = (price - mean)/std.  With d = price - mean and v = std^2 the
variance: for v > 0, z < -1 iff d < 0 and d^2 > v, and z > 1 iff
0 < d and d^2 > v; for v = 0 the float quotient d/0 is -inf, NaN or
+inf according to the sign of d (within the frame d = 0 whenever
v = 0, since zero variance forces every window value, the current
price included, to equal the window mean); a NaN mean or variance
makes z NaN and both comparisons false. -/
def mrSignal (data : PriceSeries) (w t : ℕ) : ℚ :=
  match rollingMeanW data w t, rollingVar data w t with
  | some m, some v =>
    let d := closeAt data t - m
    if v = 0 then
      if d < 0 then 1 else if 0 < d then -1 else 0
    else if d < 0 ∧ v < d ^ 2 then 1
    else if 0 < d ∧ v < d ^ 2 then -1
    else 0
  | _, _ => 0

/-- signals['signal'].diff().fillna(0) at row t, for a signal column
given as a function of the row index. -/
def positionsDelta (sig : ℕ → ℚ) (t : ℕ) : ℚ :=
  if t = 0 then 0 else sig t - sig (t - 1)

/-- The signals DataFrame built by each strategy: price column,
signal column, positions column (signal.diff().fillna(0)).
Indicator columns are recomputed on demand from the series. -/
structure SignalFrame where
  price : List ℚ
  signal : List ℚ
  positions : List ℚ

/-- Assemble the signals frame of a strategy whose per-row signal is
the function sig. -/
def mkFrame (data : PriceSeries) (sig : ℕ → ℚ) : SignalFrame :=
  { price := data
  , signal := (List.range data.length).map sig
  , positions := (List.range data.length).map (positionsDelta sig) }

def moving_average_strategy (data : PriceSeries) (short long : ℕ) :
    SignalFrame :=
  mkFrame data (maSignal data short long)

def momentum_strategy (data : PriceSeries) (w : ℕ) : SignalFrame :=
  mkFrame data (moSignal data w)

def mean_reversion_strategy (data : PriceSeries) (w : ℕ) : SignalFrame :=
  mkFrame data (mrSignal data w)

/-! ## Backtest (backtest_strategy) -/

def initial_capital : ℚ := 10000

/-- signals['signal'] at row t of an arbitrary signals frame. -/
def sigAt (sf : SignalFrame) (t : ℕ) : ℚ := sf.signal.getD t 0

/-- positions['crypto'] at row t: signal * 1000. -/
def positionAt (sf : SignalFrame) (t : ℕ) : ℚ := sigAt sf t * 1000

/-- positions['crypto'].diff().fillna(0) at row t: the first row's
NaN difference is filled with 0. -/
def positionDeltaAt (sf : SignalFrame) (t : ℕ) : ℚ :=
  if t = 0 then 0 else positionAt sf t - positionAt sf (t - 1)

/-- portfolio['cash'] at row t:
initial_capital - (positions diff * Close).cumsum(), the cumulative
sum at t being the sum of the first t+1 rows. -/
def cashAt (data : PriceSeries) (sf : SignalFrame) (t : ℕ) : ℚ :=
  initial_capital -
    ∑ k ∈ Finset.range (t + 1), positionDeltaAt sf k * closeAt data k

/-- portfolio['holdings'] at row t: positions * Close. -/
def holdingsAt (data : PriceSeries) (sf : SignalFrame) (t : ℕ) : ℚ :=
  positionAt sf t * closeAt data t

/-- portfolio['total'] at row t: cash + holdings. -/
def totalAt (data : PriceSeries) (sf : SignalFrame) (t : ℕ) : ℚ :=
  cashAt data sf t + holdingsAt data sf t

/-- The portfolio DataFrame returned by backtest_strategy. -/
structure Portfolio where
  holdings : List ℚ
  cash : List ℚ
  total : List ℚ

def backtest_strategy (data : PriceSeries) (signals : SignalFrame) :
    Portfolio :=
  { holdings := (List.range signals.signal.length).map (holdingsAt data signals)
  , cash := (List.range signals.signal.length).map (cashAt data signals)
  , total := (List.range signals.signal.length).map (totalAt data signals) }

/-! ## Optimizer objective -/

/-- portfolio['total'].iloc[-1]: the entry at the last row,
index length - 1. -/
def finalTotal (data : PriceSeries) (sf : SignalFrame) : ℚ :=
  totalAt data sf (data.length - 1)

/-- The objective evaluated at the already-truncated window
parameters: minus the mean of the three strategies' final equity.
none models the failure of iloc[-1] on an empty frame; on nonempty
data every intermediate quantity is a defined rational because NaN
indicators are discharged to signal 0 by the comparison semantics. -/
def objective (data : PriceSeries) (ws wl wm wr : ℕ) : Option ℚ :=
  if data.length = 0 then none
  else
    some (-((finalTotal data (moving_average_strategy data ws wl)
        + finalTotal data (momentum_strategy data wm)
        + finalTotal data (mean_reversion_strategy data wr)) / 3))

/-! ## Helper lemmas -/

lemma windowSlice_length (data : PriceSeries) (w t : ℕ) :
    (windowSlice data w t).length = min (t + 1) data.length - (t + 1 - w) := by
  simp [windowSlice]

lemma lt_length_of_slice_full (data : PriceSeries) (w t : ℕ) (h1 : 1 ≤ w)
    (h : (windowSlice data w t).length = w) : t < data.length := by
  rw [windowSlice_length] at h
  omega

lemma getD_map_range (f : ℕ → ℚ) (n t : ℕ) :
    ((List.range n).map f).getD t 0 = if t < n then f t else 0 := by
  by_cases h : t < n
  · simp [List.getD_eq_getElem?_getD, List.getElem?_map, List.getElem?_range, h]
  · rw [List.getD_eq_getElem?_getD, List.getElem?_eq_none]
    · simp [h]
    · simp
      omega

lemma sigAt_mkFrame (data : PriceSeries) (sig : ℕ → ℚ) (t : ℕ) :
    sigAt (mkFrame data sig) t = if t < data.length then sig t else 0 :=
  getD_map_range ..

lemma totalAt_of_sig_zero (data : PriceSeries) (sf : SignalFrame)
    (h : ∀ t, sigAt sf t = 0) (t : ℕ) :
    totalAt data sf t = initial_capital := by
  have hd : ∀ k, positionDeltaAt sf k = 0 := by
    intro k
    simp [positionDeltaAt, positionAt, h]
  simp [totalAt, cashAt, holdingsAt, positionAt, hd, h]

/-! ## Theorems about the claims -/

/-- C7: on every series, at every row and for every window choice, the
moving-average signal is in {0,1}, the momentum signal is in {0,1} and
the mean-reversion signal is in {-1,0,1}. -/
theorem strategy_signal_range (data : PriceSeries) (s l w w' t : ℕ) :
    (maSignal data s l t = 0 ∨ maSignal data s l t = 1) ∧
    (moSignal data w t = 0 ∨ moSignal data w t = 1) ∧
    (mrSignal data w' t = -1 ∨ mrSignal data w' t = 0 ∨
      mrSignal data w' t = 1) := by
  refine ⟨?_, ?_, ?_⟩
  · unfold maSignal
    rcases rollingMean1 data s t with _ | a <;>
      rcases rollingMean1 data l t with _ | b <;> simp
    exact le_or_lt a b
  · unfold moSignal
    rcases moMomentum data w t with _ | m <;> simp
    exact le_or_lt m 0
  · unfold mrSignal
    rcases rollingMeanW data w' t with _ | m <;>
      rcases rollingVar data w' t with _ | v <;> simp
    split
    · split
      · simp
      · split <;> simp
    · split
      · simp
      · split <;> simp

/-- C8: the portfolio returned by the backtest satisfies the exact
accounting identity total[t] = cash[t] + holdings[t] at every row. -/
theorem backtest_total_eq_cash_add_holdings (data : PriceSeries)
    (sf : SignalFrame) (t : ℕ) :
    (backtest_strategy data sf).total.getD t 0 =
      (backtest_strategy data sf).cash.getD t 0 +
        (backtest_strategy data sf).holdings.getD t 0 := by
  unfold backtest_strategy
  simp only [getD_map_range]
  by_cases h : t < sf.signal.length <;> simp [h, totalAt]

/-- C9: the objective is a pure function of the series and the
parameter vector: two evaluations at equal parameter vectors give
identical results. -/
theorem objective_deterministic (data : PriceSeries)
    (p q : ℕ × ℕ × ℕ × ℕ) (h : p = q) :
    objective data p.1 p.2.1 p.2.2.1 p.2.2.2 =
      objective data q.1 q.2.1 q.2.2.1 q.2.2.2 := by
  rw [h]

/-- Witness for C9 at a concrete series and parameter vector. -/
theorem objective_deterministic_witness :
    objective [(1 : ℚ), 2] (30, 90, 20, 30).1 (30, 90, 20, 30).2.1
        (30, 90, 20, 30).2.2.1 (30, 90, 20, 30).2.2.2 =
      objective [(1 : ℚ), 2] (30, 90, 20, 30).1 (30, 90, 20, 30).2.1
        (30, 90, 20, 30).2.2.1 (30, 90, 20, 30).2.2.2 :=
  objective_deterministic [(1 : ℚ), 2] (30, 90, 20, 30) (30, 90, 20, 30) rfl

/-- C4: on a nonempty series, an objective evaluation in which some
window parameter (already truncated to an integer) reaches or exceeds
the series length still returns a defined, finite rational value. -/
theorem objective_defined_of_large_window (data : PriceSeries)
    (h : data ≠ []) (ws wl wm wr : ℕ)
    (_hw : data.length ≤ ws ∨ data.length ≤ wl ∨ data.length ≤ wm ∨
      data.length ≤ wr) :
    ∃ v : ℚ, objective data ws wl wm wr = some v := by
  have hn : data.length ≠ 0 := by
    simpa [List.length_eq_zero] using h
  unfold objective
  rw [if_neg hn]
  exact ⟨_, rfl⟩

/-- Witness for C4: a 2-bar series with a momentum window of 5. -/
theorem objective_defined_of_large_window_witness :
    ∃ v : ℚ, objective [(1 : ℚ), 2] 1 2 5 2 = some v :=
  objective_defined_of_large_window [(1 : ℚ), 2] (by decide) 1 2 5 2
    (Or.inr (Or.inr (Or.inl (by norm_num))))

/-! ## Constant-series lemmas -/

lemma closeAt_replicate (n : ℕ) (c : ℚ) (t : ℕ) (h : t < n) :
    closeAt (List.replicate n c) t = c := by
  simp [closeAt, List.getD_eq_getElem?_getD, List.getElem?_replicate, h]

lemma windowSlice_replicate (n : ℕ) (c : ℚ) (w t : ℕ) :
    windowSlice (List.replicate n c) w t =
      List.replicate (min (t + 1) n - (t + 1 - w)) c := by
  simp [windowSlice, List.take_replicate, List.drop_replicate]

lemma sum_replicate_rat (k : ℕ) (c : ℚ) :
    (List.replicate k c).sum = (k : ℚ) * c := by
  simp [List.sum_replicate, nsmul_eq_mul]

lemma rollingMean1_replicate (n : ℕ) (c : ℚ) (w t : ℕ) :
    rollingMean1 (List.replicate n c) w t = none ∨
      rollingMean1 (List.replicate n c) w t = some c := by
  unfold rollingMean1
  rw [windowSlice_replicate]
  by_cases h : (List.replicate (min (t + 1) n - (t + 1 - w)) c).length = 0
  · left
    rw [if_pos h]
  · right
    rw [if_neg h]
    have hk : ((min (t + 1) n - (t + 1 - w) : ℕ) : ℚ) ≠ 0 := by
      simpa using Nat.cast_ne_zero.mpr (by simpa using h)
    simp [sum_replicate_rat, mul_div_cancel_left₀ c hk]

lemma maSignal_replicate (n : ℕ) (c : ℚ) (s l t : ℕ) :
    maSignal (List.replicate n c) s l t = 0 := by
  unfold maSignal
  rcases rollingMean1_replicate n c s t with h1 | h1 <;>
    rcases rollingMean1_replicate n c l t with h2 | h2 <;>
      simp [h1, h2]

lemma moSignal_replicate (n : ℕ) (c : ℚ) (w t : ℕ) (ht : t < n) :
    moSignal (List.replicate n c) w t = 0 := by
  unfold moSignal moMomentum
  by_cases h : w ≤ t
  · have h1 := closeAt_replicate n c t ht
    have h2 := closeAt_replicate n c (t - w) (lt_of_le_of_lt (Nat.sub_le t w) ht)
    simp [h, h1, h2]
  · simp [h]

lemma mrSignal_replicate (n : ℕ) (c : ℚ) (w t : ℕ) :
    mrSignal (List.replicate n c) w t = 0 := by
  unfold mrSignal
  by_cases hv : (windowSlice (List.replicate n c) w t).length = w ∧ 2 ≤ w
  · have ht : t < n := by
      have := lt_length_of_slice_full (List.replicate n c) w t (by omega) hv.1
      simpa using this
    have hs : windowSlice (List.replicate n c) w t = List.replicate w c := by
      have := windowSlice_replicate n c w t
      have hlen : min (t + 1) n - (t + 1 - w) = w := by
        have := hv.1
        rw [windowSlice_length] at this
        simpa using this
      rw [this, hlen]
    have hwq : ((w : ℕ) : ℚ) ≠ 0 := Nat.cast_ne_zero.mpr (by omega)
    have hmean : rollingMeanW (List.replicate n c) w t = some c := by
      unfold rollingMeanW
      rw [hs]
      rw [if_pos ⟨by simp, by omega⟩]
      simp [sum_replicate_rat, mul_div_cancel_left₀ c hwq]
    have hvar : rollingVar (List.replicate n c) w t = some 0 := by
      unfold rollingVar
      rw [hs]
      rw [if_pos ⟨by simp, hv.2⟩]
      simp [sum_replicate_rat, mul_div_cancel_left₀ c hwq]
    rw [hmean, hvar]
    simp [closeAt_replicate n c t ht]
  · have hvar : rollingVar (List.replicate n c) w t = none := by
      unfold rollingVar
      rw [if_neg hv]
    rcases hm : rollingMeanW (List.replicate n c) w t with _ | m <;>
      rw [hvar]

lemma sigAt_mkFrame_zero (data : PriceSeries) (sig : ℕ → ℚ)
    (h : ∀ u, u < data.length → sig u = 0) (t : ℕ) :
    sigAt (mkFrame data sig) t = 0 := by
  rw [sigAt_mkFrame]
  by_cases ht : t < data.length <;> simp [ht, h t]

/-- Row 0 of the portfolio: the first diff is filled with 0, so the
cash is the initial capital and the total adds the first holdings. -/
lemma totalAt_zero (data : PriceSeries) (sf : SignalFrame)
    (h : sigAt sf 0 = 0) : totalAt data sf 0 = initial_capital := by
  simp [totalAt, cashAt, holdingsAt, positionAt, positionDeltaAt, h]

/-- On a constant series every strategy signal vanishes, so every
objective evaluation returns minus the initial capital. -/
lemma objective_replicate (n : ℕ) (hn : n ≠ 0) (ws wl wm wr : ℕ) :
    objective (List.replicate n (100 : ℚ)) ws wl wm wr =
      some (-initial_capital) := by
  have hlen : (List.replicate n (100 : ℚ)).length = n := by simp
  have hma : ∀ t, sigAt (moving_average_strategy (List.replicate n (100 : ℚ)) ws wl) t = 0 :=
    fun t => sigAt_mkFrame_zero _ _ (fun u _ => maSignal_replicate n 100 ws wl u) t
  have hmo : ∀ t, sigAt (momentum_strategy (List.replicate n (100 : ℚ)) wm) t = 0 :=
    fun t => sigAt_mkFrame_zero _ _ (fun u hu => moSignal_replicate n 100 wm u (by simpa using hu)) t
  have hmr : ∀ t, sigAt (mean_reversion_strategy (List.replicate n (100 : ℚ)) wr) t = 0 :=
    fun t => sigAt_mkFrame_zero _ _ (fun u _ => mrSignal_replicate n 100 wr u) t
  unfold objective
  rw [if_neg (by simpa using hn)]
  unfold finalTotal
  rw [totalAt_of_sig_zero _ _ hma, totalAt_of_sig_zero _ _ hmo,
    totalAt_of_sig_zero _ _ hmr]
  norm_num [initial_capital]

/-- The 10-bar strictly increasing series of the concrete scenario. -/
def data10 : PriceSeries := [100, 101, 102, 103, 104, 105, 106, 107, 108, 109]

/-- C5: on the 10-bar series 100..109, momentum with window 3 signals
1 from row 3 on and 0 before, and its positions column holds exactly
one +1 and no -1. -/
theorem momentum_concrete_scenario :
    (momentum_strategy data10 3).signal = [0, 0, 0, 1, 1, 1, 1, 1, 1, 1] ∧
    (momentum_strategy data10 3).positions.count 1 = 1 ∧
    (momentum_strategy data10 3).positions.count (-1) = 0 := by
  have hr : List.range 10 = [0, 1, 2, 3, 4, 5, 6, 7, 8, 9] := by decide
  have hlen : data10.length = 10 := by decide
  refine ⟨?_, ?_, ?_⟩ <;>
    simp [momentum_strategy, mkFrame, hlen, hr, moSignal, moMomentum,
      closeAt, positionsDelta, data10] <;> norm_num

/-! ## C1: the closed-form cash identity -/

/-- Modelled from the spec and claim C1: the closed-form cash
trajectory with position[-1] defined as 0, so that the row-0 term of
the cumulative cost is position[0] * price[0]. -/
def specCashClosedForm (data : PriceSeries) (sf : SignalFrame) (t : ℕ) : ℚ :=
  initial_capital -
    ∑ k ∈ Finset.range (t + 1),
      (positionAt sf k - if k = 0 then 0 else positionAt sf (k - 1)) *
        closeAt data k

/-- A one-bar frame whose signal is already 1 at row 0. -/
def sfC1 : SignalFrame := { price := [100], signal := [1], positions := [1] }

/-- C1 counterexample: on a one-bar series at price 100 with signal 1
at row 0, the code's cash (diff().fillna(0) puts 0 at row 0) is
10000, while the claimed closed form with position[-1] = 0 charges
the opening trade and gives -90000. -/
theorem cash_closed_form_cex :
    cashAt [(100 : ℚ)] sfC1 0 ≠ specCashClosedForm [(100 : ℚ)] sfC1 0 := by
  norm_num [cashAt, specCashClosedForm, positionAt, positionDeltaAt, sigAt,
    closeAt, sfC1, initial_capital]

/-- C1 amended: for every series and aligned frame, the code's
diff().fillna(0).cumsum() cash equals the closed form
cash[t] = 10000 - sum over k <= t of
(position[k] - position[k-1]) * price[k] in which position[-1] is
defined as position[0] (the row-0 increment is filled with 0, not
with position[0]). -/
theorem cash_closed_form_amended (data : PriceSeries) (sf : SignalFrame)
    (t : ℕ) :
    cashAt data sf t =
      initial_capital -
        ∑ k ∈ Finset.range (t + 1),
          (positionAt sf k -
            if k = 0 then positionAt sf 0 else positionAt sf (k - 1)) *
            closeAt data k := by
  unfold cashAt
  congr 1
  refine Finset.sum_congr rfl ?_
  intro k _
  by_cases hk : k = 0 <;> simp [positionDeltaAt, hk]

/-! ## C3: equity at row 0 -/

/-- A frame whose positions column is 0 at row 0 although its signal
there is 1: the backtest reads only the signal column. -/
def sfC3 : SignalFrame := { price := [100], signal := [1], positions := [0] }

/-- C3 counterexample: a frame with position_delta[0] = 0 but
signal[0] = 1 on a one-bar series at price 100 has total equity
110000 at row 0, not the initial capital. -/
theorem total_equity_first_row_cex :
    sfC3.positions.getD 0 0 = 0 ∧
      (backtest_strategy [(100 : ℚ)] sfC3).total.getD 0 0 ≠ initial_capital := by
  constructor
  · rfl
  · norm_num [backtest_strategy, sfC3, totalAt, cashAt, holdingsAt,
      positionAt, positionDeltaAt, sigAt, closeAt, initial_capital]

/-- C3 amended: for every series and every frame whose signal at
row 0 is 0, the backtest total equity at row 0 equals the initial
capital 10000 (the positions column is irrelevant: the engine
recomputes the deltas from the signal column). -/
theorem total_equity_first_row (data : PriceSeries) (sf : SignalFrame)
    (h : sigAt sf 0 = 0) : totalAt data sf 0 = initial_capital :=
  totalAt_zero data sf h

/-- Witness for the amended C3 at a concrete series and frame. -/
theorem total_equity_first_row_witness :
    totalAt [(100 : ℚ)] ⟨[100], [0], [0]⟩ 0 = initial_capital :=
  total_equity_first_row [(100 : ℚ)] ⟨[100], [0], [0]⟩ rfl

/-! ## C2: degenerate windows inside the objective -/

/-- C2 counterexample: on a constant 5-bar series at price 100, the
evaluation whose momentum window 10 exceeds the series length is
mapped to -10000, exactly the value of a fully non-degenerate
evaluation (windows 2 and 3): the code applies no distinguished
penalty, and by objective_replicate every evaluation on this series
has this same value, so the degenerate value is even minimal. -/
theorem objective_degenerate_no_penalty_cex :
    objective (List.replicate 5 (100 : ℚ)) 20 50 10 30 = some (-10000) ∧
      objective (List.replicate 5 (100 : ℚ)) 2 3 2 2 = some (-10000) := by
  constructor <;>
    · rw [objective_replicate 5 (by norm_num)]
      norm_num [initial_capital]

/-- C2 amended: on a nonempty series, an evaluation whose momentum
window reaches or exceeds the series length still returns a defined
value (never an undefined one), the degenerate indicator falling back
to signal 0 so that the strategy contributes exactly the no-trade
equity, the initial capital. -/
theorem objective_degenerate_defined (data : PriceSeries) (h : data ≠ [])
    (ws wl wm wr : ℕ) (hw : data.length ≤ wm) :
    (objective data ws wl wm wr).isSome = true ∧
      finalTotal data (momentum_strategy data wm) = initial_capital := by
  have hn : data.length ≠ 0 := by
    simpa [List.length_eq_zero] using h
  constructor
  · unfold objective
    rw [if_neg hn]
    rfl
  · refine totalAt_of_sig_zero data _ ?_ _
    intro t
    refine sigAt_mkFrame_zero _ _ ?_ t
    intro u hu
    have hm : moMomentum data wm u = none := by
      unfold moMomentum
      rw [if_neg (by omega)]
    unfold moSignal
    rw [hm]

/-- Witness for the amended C2: a constant 2-bar series with a
momentum window of 5. -/
theorem objective_degenerate_defined_witness :
    (objective (List.replicate 2 (100 : ℚ)) 1 1 5 1).isSome = true ∧
      finalTotal (List.replicate 2 (100 : ℚ))
          (momentum_strategy (List.replicate 2 (100 : ℚ)) 5) =
        initial_capital :=
  objective_degenerate_defined (List.replicate 2 (100 : ℚ)) (by simp)
    1 1 5 1 (by simp)

/-! ## C6: the constant series and the zero standard deviation -/

/-- C6: on a series constant at 100 (of any length), mean reversion
with window 5 yields signal 0 at every row (the zero-variance,
zero-numerator z-score is NaN and falls back to no signal, without
raising), and the backtest total equity stays exactly 10000 at every
row. -/
theorem mean_reversion_constant_series (n t : ℕ) :
    mrSignal (List.replicate n (100 : ℚ)) 5 t = 0 ∧
      totalAt (List.replicate n (100 : ℚ))
          (mean_reversion_strategy (List.replicate n (100 : ℚ)) 5) t =
        initial_capital := by
  refine ⟨mrSignal_replicate n 100 5 t, ?_⟩
  refine totalAt_of_sig_zero _ _ ?_ t
  intro u
  exact sigAt_mkFrame_zero _ _ (fun v _ => mrSignal_replicate n 100 5 v) u

/-! ## C10: the first row of every strategy -/

/-- C10: on a nonempty series with window parameters at least 1, all
three strategies signal 0 at row 0 (equal one-point rolling means for
the crossover, undefined indicators otherwise), their positions
column is 0 at row 0, and the backtest equity at row 0 is the
initial capital for each of the three frames. -/
theorem first_row_flat (data : PriceSeries) (h : data ≠ [])
    (s l w w' : ℕ) (hs : 1 ≤ s) (hl : 1 ≤ l) (hw : 1 ≤ w) (hw' : 1 ≤ w') :
    maSignal data s l 0 = 0 ∧ moSignal data w 0 = 0 ∧
      mrSignal data w' 0 = 0 ∧
      (moving_average_strategy data s l).positions.getD 0 0 = 0 ∧
      (momentum_strategy data w).positions.getD 0 0 = 0 ∧
      (mean_reversion_strategy data w').positions.getD 0 0 = 0 ∧
      totalAt data (moving_average_strategy data s l) 0 = initial_capital ∧
      totalAt data (momentum_strategy data w) 0 = initial_capital ∧
      totalAt data (mean_reversion_strategy data w') 0 = initial_capital := by
  obtain ⟨c, rest, rfl⟩ : ∃ c rest, data = c :: rest := by
    cases data with
    | nil => exact absurd rfl h
    | cons c rest => exact ⟨c, rest, rfl⟩
  have hma : maSignal (c :: rest) s l 0 = 0 := by
    have hmean : ∀ u, 1 ≤ u → rollingMean1 (c :: rest) u 0 = some c := by
      intro u hu
      have hslice : windowSlice (c :: rest) u 0 = [c] := by
        unfold windowSlice
        have : 1 - u = 0 := by omega
        simp [this]
      unfold rollingMean1
      rw [hslice]
      norm_num
    unfold maSignal
    rw [hmean s hs, hmean l hl]
    simp
  have hmo : moSignal (c :: rest) w 0 = 0 := by
    have hm : moMomentum (c :: rest) w 0 = none := by
      unfold moMomentum
      rw [if_neg (by omega)]
    unfold moSignal
    rw [hm]
  have hmr : mrSignal (c :: rest) w' 0 = 0 := by
    have hvar : rollingVar (c :: rest) w' 0 = none := by
      have hlen : (windowSlice (c :: rest) w' 0).length ≤ 1 := by
        rw [windowSlice_length]
        omega
      unfold rollingVar
      rw [if_neg (by omega)]
    rcases hm : rollingMeanW (c :: rest) w' 0 with _ | m <;>
      · unfold mrSignal
        rw [hm, hvar]
  have hlen0 : 0 < (c :: rest).length := by simp
  have hfirst : ∀ sig : ℕ → ℚ, sig 0 = 0 →
      sigAt (mkFrame (c :: rest) sig) 0 = 0 := by
    intro sig hsig
    rw [sigAt_mkFrame]
    simp [hlen0, hsig]
  have hpos : ∀ sig : ℕ → ℚ,
      (mkFrame (c :: rest) sig).positions.getD 0 0 = 0 := by
    intro sig
    show ((List.range (c :: rest).length).map (positionsDelta sig)).getD 0 0 = 0
    rw [getD_map_range]
    simp [hlen0, positionsDelta]
  refine ⟨hma, hmo, hmr, hpos _, hpos _, hpos _, ?_, ?_, ?_⟩
  · exact totalAt_zero _ _ (hfirst _ hma)
  · exact totalAt_zero _ _ (hfirst _ hmo)
  · exact totalAt_zero _ _ (hfirst _ hmr)

/-- Witness for C10 on a concrete two-bar series with the smallest
allowed windows. -/
theorem first_row_flat_witness :
    maSignal [(100 : ℚ), 101] 1 1 0 = 0 ∧ moSignal [(100 : ℚ), 101] 1 0 = 0 ∧
      mrSignal [(100 : ℚ), 101] 1 0 = 0 ∧
      (moving_average_strategy [(100 : ℚ), 101] 1 1).positions.getD 0 0 = 0 ∧
      (momentum_strategy [(100 : ℚ), 101] 1).positions.getD 0 0 = 0 ∧
      (mean_reversion_strategy [(100 : ℚ), 101] 1).positions.getD 0 0 = 0 ∧
      totalAt [(100 : ℚ), 101] (moving_average_strategy [(100 : ℚ), 101] 1 1) 0 =
        initial_capital ∧
      totalAt [(100 : ℚ), 101] (momentum_strategy [(100 : ℚ), 101] 1) 0 =
        initial_capital ∧
      totalAt [(100 : ℚ), 101] (mean_reversion_strategy [(100 : ℚ), 101] 1) 0 =
        initial_capital :=
  first_row_flat [(100 : ℚ), 101] (by simp) 1 1 1 1 (le_refl 1) (le_refl 1)
    (le_refl 1) (le_refl 1)

end CryptoAnalysis
